import Mathlib

/-!
Shallow embedding of the highlight (selection) engine in
`src/HighlightModel.ts`: the `HighlightModel` range state and the
`HighlightManager` word-boundary / extraction algorithms, together with
theorems checking the specification's claims against them.

Conventions: JS numbers that only ever hold integers are embedded as `Int`;
points `[x, y]` become `Int × Int` with `.1` the column and `.2` the row;
JS strings become `List Char`; nullable values become `Option`.
-/

/-- JS truncating remainder `a % b` (the sign follows the dividend), as used
by `startPlusLength % this._terminal.cols`. -/
def jsRem (a b : Int) : Int := Int.tmod a b

/-- JS `Math.floor(a / b)` on integers: floor division. -/
def jsFloorDiv (a b : Int) : Int := Int.fdiv a b

/-- The slice of terminal state the highlight engine reads:
`_terminal.cols`, `_terminal.rows`, `_terminal.buffer.ybase` and
`_terminal.buffer.lines.length`. -/
structure Ctx where
  cols : Int
  rows : Int
  ybase : Int
  bufferLength : Int
  deriving DecidableEq, Repr

/-- The mutable state of `HighlightModel`. -/
structure HighlightModel where
  isHighlightAllActive : Bool
  highlightStart : Option (Int × Int)
  highlightStartLength : Int
  highlightEnd : Option (Int × Int)
  deriving DecidableEq, Repr

namespace HighlightModel

/-- `HighlightModel.clearHighlight()`. -/
def clearHighlight : HighlightModel :=
  { isHighlightAllActive := false
    highlightStart := none
    highlightStartLength := 0
    highlightEnd := none }

/-- `HighlightModel.areHighlightValuesReversed()`. -/
def areHighlightValuesReversed (m : HighlightModel) : Bool :=
  match m.highlightStart, m.highlightEnd with
  | some s, some e => decide (s.2 > e.2) || (decide (s.2 = e.2) && decide (s.1 > e.1))
  | _, _ => false

/-- `HighlightModel.finalHighlightStart`. -/
def finalHighlightStart (m : HighlightModel) : Option (Int × Int) :=
  if m.isHighlightAllActive then some (0, 0)
  else if m.highlightEnd.isNone || m.highlightStart.isNone then m.highlightStart
  else if m.areHighlightValuesReversed then m.highlightEnd
  else m.highlightStart

/-- `HighlightModel.finalHighlightEnd`. -/
def finalHighlightEnd (t : Ctx) (m : HighlightModel) : Option (Int × Int) :=
  if m.isHighlightAllActive then some (t.cols, t.ybase + t.rows - 1)
  else
    match m.highlightStart with
    | none => none
    | some s =>
      -- Use the highlight start + length if the end doesn't exist or they're reversed
      let byLength : Option (Int × Int) :=
        let startPlusLength := s.1 + m.highlightStartLength
        if startPlusLength > t.cols then
          some (jsRem startPlusLength t.cols, s.2 + jsFloorDiv startPlusLength t.cols)
        else
          some (startPlusLength, s.2)
      match m.highlightEnd with
      | none => byLength
      | some e =>
        if m.areHighlightValuesReversed then byLength
        else if m.highlightStartLength ≠ 0 then
          -- Highlight the larger of the two when start and end are on the same line
          if e.2 = s.2 then some (max (s.1 + m.highlightStartLength) e.1, e.2)
          else some e
        else some e

/-- `HighlightModel.onTrim(amount)`: the updated model paired with the
returned "refresh needed" flag. -/
def onTrim (m : HighlightModel) (amount : Int) : HighlightModel × Bool :=
  let start1 := m.highlightStart.map fun s => (s.1, s.2 - amount)
  let end1 := m.highlightEnd.map fun e => (e.1, e.2 - amount)
  let m1 : HighlightModel := { m with highlightStart := start1, highlightEnd := end1 }
  if (match end1 with | some e => decide (e.2 < 0) | none => false) then
    (clearHighlight, true)
  else
    match start1 with
    | some s =>
      if s.2 < 0 then ({ m1 with highlightStart := some (s.1, 0) }, false)
      else (m1, false)
    | none => (m1, false)

/-- `adjustForTrim` as the specification words it: decrement both rows by
`amount`; if the new end row is negative, clear everything and report a
redraw; otherwise clamp a negative start row to 0 (column untouched) and
report no redraw. -/
def onTrimSpec (m : HighlightModel) (amount : Int) : HighlightModel × Bool :=
  let start1 := m.highlightStart.map fun s => (s.1, s.2 - amount)
  let end1 := m.highlightEnd.map fun e => (e.1, e.2 - amount)
  match end1 with
  | some e =>
    if e.2 < 0 then (clearHighlight, true)
    else ({ m with highlightStart := start1.map fun s => (s.1, max s.2 0),
                   highlightEnd := end1 }, false)
  | none =>
    ({ m with highlightStart := start1.map fun s => (s.1, max s.2 0),
              highlightEnd := end1 }, false)

end HighlightModel

/-- One buffer cell, the slots of `CharData` the highlight engine reads:
the string fragment (`CHAR_DATA_CHAR_INDEX`), the display width
(`CHAR_DATA_WIDTH_INDEX`) and the code point (`CHAR_DATA_CODE_INDEX`). -/
structure CharData where
  chars : List Char
  width : Int
  code : Int
  deriving DecidableEq, Repr

/-- Cell produced when a column is read out of range (keeps the model total;
the algorithms only read in-range columns on well-formed lines). -/
def nullCharData : CharData := { chars := [' '], width := 1, code := 32 }

/-- An `IBufferLine`: its cells and its soft-wrap flag. -/
structure BufferLine where
  cells : List CharData
  isWrapped : Bool
  deriving DecidableEq, Repr

namespace BufferLine

/-- `bufferLine.get(i)`. -/
def get (bl : BufferLine) (i : Int) : CharData :=
  if i < 0 then nullCharData else bl.cells.getD i.toNat nullCharData

/-- `bufferLine.length`. -/
def length (bl : BufferLine) : Int := bl.cells.length

end BufferLine

/-- The active buffer: `_buffer.lines`, addressed by absolute row index. -/
structure TermBuffer where
  lines : List BufferLine
  deriving DecidableEq, Repr

/-- `buffer.lines.get(i)`: `none` when the row does not exist. -/
def TermBuffer.get (b : TermBuffer) (i : Int) : Option BufferLine :=
  if 0 ≤ i then b.lines.get? i.toNat else none

/-- JS `string.charAt(i)`: `none` stands for the empty string returned on an
out-of-range index (which compares unequal to any one-character string). -/
def jsCharAt (l : List Char) (i : Int) : Option Char :=
  if 0 ≤ i then l.get? i.toNat else none

/-- JS `string.slice(s, e)` (negative arguments count from the end, indices
are clamped to the string). -/
def jsSlice (l : List Char) (s e : Int) : List Char :=
  let len : Int := l.length
  let s1 := if s < 0 then max (len + s) 0 else min s len
  let e1 := if e < 0 then max (len + e) 0 else min e len
  (l.take e1.toNat).drop s1.toNat

/-- The whitespace characters of JS `String.prototype.trim` that can occur in
terminal cells (space, tab, LF, VT, FF, CR, NBSP). -/
def isJsWhitespace (c : Char) : Bool :=
  c == ' ' || c == Char.ofNat 9 || c == Char.ofNat 10 || c == Char.ofNat 11 ||
  c == Char.ofNat 12 || c == Char.ofNat 13 || c == Char.ofNat 160

/-- JS `s.trim() === ''`: every character of `s` is whitespace. -/
def jsTrimIsEmpty (l : List Char) : Bool := l.all isJsWhitespace

/-- The `WORD_SEPARATORS` constant: space, round/square/curly brackets,
apostrophe and double quote. -/
def WORD_SEPARATORS : List Char :=
  [' ', '(', ')', '[', ']', Char.ofNat 123, Char.ofNat 125, Char.ofNat 39, Char.ofNat 34]

/-- JS `hay.indexOf(needle) >= 0`: `needle` occurs contiguously in `hay`
(true for the empty needle). -/
def jsStringIncludes (needle hay : List Char) : Bool :=
  (List.range (hay.length + 1)).any fun i => needle == (hay.drop i).take needle.length

/-- The flattened rendered text of a list of cells: width-0 continuation
cells contribute nothing, every other cell contributes its fragment. -/
def renderCells (cells : List CharData) : List Char :=
  (cells.filter fun c => c.width != 0).foldr (fun c acc => c.chars ++ acc) []

/-- Modelled from the spec: the Buffer collaborator's
`translateBufferLineToString(lineIndex, trimRight, startCol, endCol)`
(its source, `Buffer.ts`, is not part of this repository slice). Per §3/§6 it
returns the row's rendered string for an optional column sub-range, omitting
width-0 continuation cells, trailing whitespace removed when `trimRight`. -/
def renderBufferLine (bl : BufferLine) (trimRight : Bool) (startCol : Int)
    (endCol : Option Int) : List Char :=
  let stop : Int := match endCol with | some e => min e bl.length | none => bl.length
  let first : Int := max startCol 0
  let s := renderCells ((bl.cells.take stop.toNat).drop first.toNat)
  if trimRight then (s.reverse.dropWhile isJsWhitespace).reverse else s

/-- An `IWordPosition`: start column and column length of a detected word. -/
structure WordPosition where
  start : Int
  length : Int
  deriving DecidableEq, Repr

/-- A selection mode (`HighlightMode`). -/
inductive HighlightMode where
  | NORMAL
  | WORD
  | LINE
  | COLUMN
  deriving DecidableEq, Repr

namespace HighlightManager

/-- `_isCharWordSeparator(charData)`: zero-width cells are never separators;
otherwise JS `WORD_SEPARATORS.indexOf(char) >= 0` (a substring search on the
cell's fragment). -/
def isCharWordSeparator (cd : CharData) : Bool :=
  if cd.width == 0 then false
  else jsStringIncludes cd.chars WORD_SEPARATORS

/-- The body of the `_convertViewportColToCharacterIndex` loop: a width-0
cell lowers the running string index by one; a cell with a fragment longer
than one unit that is not the target column itself raises it by
`fragment length - 1`. -/
def convertStep (bl : BufferLine) (x : Int) (charIndex : Int) (i : Nat) : Int :=
  let ch := bl.get i
  if ch.width == 0 then charIndex - 1
  else if 1 < ch.chars.length ∧ x ≠ (i : Int) then
    charIndex + ((ch.chars.length : Int) - 1)
  else charIndex

/-- `_convertViewportColToCharacterIndex(bufferLine, coords)`: the `for` loop
over columns `0..coords[0]` folded over `List.range`; a negative target column
never enters the loop. -/
def convertViewportColToCharacterIndex (bl : BufferLine) (x : Int) : Int :=
  if x < 0 then x
  else (List.range (x.toNat + 1)).foldl (convertStep bl x) x

/-- The left whitespace loop of `_getWordAt`:
`while (startIndex > 0 && line.charAt(startIndex - 1) === ' ') startIndex--`.
The fuel only needs to cover the initial `startIndex`. -/
def expandLeftWs (line : List Char) : Nat → Int → Int
  | 0, i => i
  | Nat.succ fuel, i =>
    if 0 < i ∧ jsCharAt line (i - 1) = some ' ' then expandLeftWs line fuel (i - 1)
    else i

/-- The right whitespace loop of `_getWordAt`:
`while (endIndex < line.length && line.charAt(endIndex + 1) === ' ') endIndex++`. -/
def expandRightWs (line : List Char) : Nat → Int → Int
  | 0, i => i
  | Nat.succ fuel, i =>
    if i < (line.length : Int) ∧ jsCharAt line (i + 1) = some ' ' then
      expandRightWs line fuel (i + 1)
    else i

/-- The mutable locals of the leftward word scan. -/
structure LeftScan where
  startIndex : Int
  startCol : Int
  leftWideCharCount : Int
  leftLongCharOffset : Int
  deriving DecidableEq, Repr

/-- The leftward word-expansion loop of `_getWordAt`. Each iteration lowers
`startCol` by at least one, so fuel covering the initial `startCol`
reproduces the loop exactly. -/
def expandLeftWord (bl : BufferLine) : Nat → LeftScan → LeftScan
  | 0, st => st
  | Nat.succ fuel, st =>
    if 0 < st.startCol ∧ 0 < st.startIndex ∧
        ¬ isCharWordSeparator (bl.get (st.startCol - 1)) = true then
      let ch := bl.get (st.startCol - 1)
      let st1 :=
        if ch.width == 0 then
          { st with leftWideCharCount := st.leftWideCharCount + 1,
                    startCol := st.startCol - 1 }
        else if 1 < ch.chars.length then
          { st with leftLongCharOffset := st.leftLongCharOffset + ((ch.chars.length : Int) - 1),
                    startIndex := st.startIndex - ((ch.chars.length : Int) - 1) }
        else st
      expandLeftWord bl fuel
        { st1 with startIndex := st1.startIndex - 1, startCol := st1.startCol - 1 }
    else st

/-- The mutable locals of the rightward word scan. -/
structure RightScan where
  endIndex : Int
  endCol : Int
  rightWideCharCount : Int
  rightLongCharOffset : Int
  deriving DecidableEq, Repr

/-- The rightward word-expansion loop of `_getWordAt`. Each iteration raises
`endCol` by at least one, so fuel covering `bufferLine.length - endCol`
reproduces the loop exactly. -/
def expandRightWord (bl : BufferLine) (lineLen : Int) : Nat → RightScan → RightScan
  | 0, st => st
  | Nat.succ fuel, st =>
    if st.endCol < bl.length ∧ st.endIndex + 1 < lineLen ∧
        ¬ isCharWordSeparator (bl.get (st.endCol + 1)) = true then
      let ch := bl.get (st.endCol + 1)
      let st1 :=
        if ch.width == 2 then
          { st with rightWideCharCount := st.rightWideCharCount + 1,
                    endCol := st.endCol + 1 }
        else if 1 < ch.chars.length then
          { st with rightLongCharOffset := st.rightLongCharOffset + ((ch.chars.length : Int) - 1),
                    endIndex := st.endIndex + ((ch.chars.length : Int) - 1) }
        else st
      expandRightWord bl lineLen fuel
        { st1 with endIndex := st1.endIndex + 1, endCol := st1.endCol + 1 }
    else st

/-- The string-index and column bookkeeping of one `_getWordAt` call on its
own row: everything between the coordinate conversion and the
whitespace-only check (source lines 503-598), before any wrapped-row
recursion. -/
structure WordCore where
  startIndex : Int
  endIndex : Int
  start : Int
  length : Int
  deriving DecidableEq, Repr

/-- The single-row word-boundary computation of `_getWordAt(coords, ...)`:
string/column indices of the detected run and the resulting start column and
column length (the latter capped at `cols` by `Math.min`). -/
def wordCoreAt (t : Ctx) (bl : BufferLine) (line : List Char) (x : Int) : WordCore :=
  let startIndex0 := convertViewportColToCharacterIndex bl x
  let charOffset := x - startIndex0
  if jsCharAt line startIndex0 = some ' ' then
    -- Expand until non-whitespace is hit
    let si := expandLeftWs line (max startIndex0 0).toNat startIndex0
    let ei := expandRightWs line (max ((line.length : Int) - startIndex0) 0).toNat startIndex0
    let endIndex := ei + 1
    { startIndex := si
      endIndex := endIndex
      start := si + charOffset
      length := min t.cols (endIndex - si) }
  else
    -- Expand until whitespace is hit, keeping string index and column in sync
    let startCol0 := x
    let endCol0 := x
    let lw0 : Int × Int :=
      if (bl.get startCol0).width == 0 then (1, startCol0 - 1) else (0, startCol0)
    let rw0 : Int × Int :=
      if (bl.get endCol0).width == 2 then (1, endCol0 + 1) else (0, endCol0)
    let endCol1 := rw0.2
    let rl0 : Int × Int :=
      if 1 < (bl.get endCol1).chars.length then
        (((bl.get endCol1).chars.length : Int) - 1,
         startIndex0 + ((bl.get endCol1).chars.length : Int) - 1)
      else (0, startIndex0)
    let ls := expandLeftWord bl (max lw0.2 0).toNat
      { startIndex := startIndex0, startCol := lw0.2,
        leftWideCharCount := lw0.1, leftLongCharOffset := 0 }
    let rs := expandRightWord bl (line.length : Int) (max (bl.length - endCol1) 0).toNat
      { endIndex := rl0.2, endCol := endCol1,
        rightWideCharCount := rw0.1, rightLongCharOffset := rl0.1 }
    let endIndex := rs.endIndex + 1
    { startIndex := ls.startIndex
      endIndex := endIndex
      start := ls.startIndex + charOffset - ls.leftWideCharCount + ls.leftLongCharOffset
      length := min t.cols (endIndex - ls.startIndex + ls.leftWideCharCount
        + rs.rightWideCharCount - ls.leftLongCharOffset - rs.rightLongCharOffset) }

/-- `_getWordAt(coords, allowWhitespaceOnlyHighlight, followWrappedLinesAbove,
followWrappedLinesBelow)`, with explicit fuel for the row-by-row wrap
recursion (each recursive call needs its neighbouring row to exist, so fuel
covering the buffer row count reproduces the recursion exactly). -/
def getWordAtAux (buf : TermBuffer) (t : Ctx) :
    Nat → Int × Int → Bool → Bool → Bool → Option WordPosition
  | 0, _, _, _, _ => none
  | Nat.succ fuel, coords, allowWhitespaceOnlyHighlight,
      followWrappedLinesAbove, followWrappedLinesBelow =>
    -- Ensure coords are within viewport
    if coords.1 ≥ t.cols then none
    else
      match buf.get coords.2 with
      | none => none
      | some bl =>
        let line := renderBufferLine bl false 0 none
        let core := wordCoreAt t bl line coords.1
        if allowWhitespaceOnlyHighlight = false ∧
            jsTrimIsEmpty (jsSlice line core.startIndex core.endIndex) = true then
          none
        else
          -- Recurse upwards if the line is wrapped and the word wraps above
          let above : Int × Int :=
            if followWrappedLinesAbove = true ∧ core.start = 0 ∧ (bl.get 0).code ≠ 32 then
              match buf.get (coords.2 - 1) with
              | some prev =>
                if bl.isWrapped = true ∧ (prev.get (t.cols - 1)).code ≠ 32 then
                  match getWordAtAux buf t fuel (t.cols - 1, coords.2 - 1) false true false with
                  | some wp =>
                    let offset := t.cols - wp.start
                    (core.start - offset, core.length + offset)
                  | none => (core.start, core.length)
                else (core.start, core.length)
              | none => (core.start, core.length)
            else (core.start, core.length)
          -- Recurse downwards if the line is wrapped and the word wraps below
          let below : Int × Int :=
            if followWrappedLinesBelow = true ∧ above.1 + above.2 = t.cols ∧
                (bl.get (t.cols - 1)).code ≠ 32 then
              match buf.get (coords.2 + 1) with
              | some next =>
                if next.isWrapped = true ∧ (next.get 0).code ≠ 32 then
                  match getWordAtAux buf t fuel (0, coords.2 + 1) false false true with
                  | some wp => (above.1, above.2 + wp.length)
                  | none => (above.1, above.2)
                else (above.1, above.2)
              | none => (above.1, above.2)
            else (above.1, above.2)
          some { start := below.1, length := below.2 }

/-- `_getWordAt` with fuel sufficient for any chain of wrapped rows in the
buffer. -/
def getWordAt (buf : TermBuffer) (t : Ctx) (coords : Int × Int)
    (allowWhitespaceOnlyHighlight followWrappedLinesAbove followWrappedLinesBelow : Bool) :
    Option WordPosition :=
  getWordAtAux buf t (buf.lines.length + 1) coords allowWhitespaceOnlyHighlight
    followWrappedLinesAbove followWrappedLinesBelow

/-- The whitespace-only test `_getWordAt` applies to the span it detected:
`line.slice(startIndex, endIndex).trim() === ''` on the row's rendered
string. -/
def wordSliceAllWhitespace (buf : TermBuffer) (t : Ctx) (coords : Int × Int) : Bool :=
  match buf.get coords.2 with
  | none => false
  | some bl =>
    let line := renderBufferLine bl false 0 none
    let core := wordCoreAt t bl line coords.1
    jsTrimIsEmpty (jsSlice line core.startIndex core.endIndex)

/-- `highlightLines(start, end)`: state effect on the model (`clearHighlight`
followed by the two one-sided clamps and the two assignments). -/
def highlightLines (t : Ctx) (_m : HighlightModel) (startRow endRow : Int) : HighlightModel :=
  let cleared := HighlightModel.clearHighlight
  let s := max startRow 0
  let e := min endRow (t.bufferLength - 1)
  { cleared with highlightStart := some (0, s), highlightEnd := some (t.cols, e) }

/-- `line.replace(ALL_NON_BREAKING_SPACE_REGEX, ' ')`. -/
def replaceNbsp (l : List Char) : List Char :=
  l.map fun c => if c == Char.ofNat 160 then ' ' else c

/-- The inclusive integer range of a JS `for (let i = a; i <= b; i++)` loop. -/
def intRangeIncl (a b : Int) : List Int :=
  if a > b then [] else (List.range (b - a + 1).toNat).map fun k => a + (k : Int)

/-- `_buffer.translateBufferLineToString(i, trimRight, startCol, endCol)` on
the buffer: empty for a missing row. -/
def lineTextAt (buf : TermBuffer) (i : Int) (trimRight : Bool) (startCol : Int)
    (endCol : Option Int) : List Char :=
  match buf.get i with
  | some bl => renderBufferLine bl trimRight startCol endCol
  | none => []

/-- `(this._buffer.lines.get(i)).isWrapped`, false for a missing row. -/
def lineWrappedAt (buf : TermBuffer) (i : Int) : Bool :=
  match buf.get i with
  | some bl => bl.isWrapped
  | none => false

/-- `result[result.length - 1] += lineText` (the accumulator is never empty
when the source executes this). -/
def appendToLast (acc : List (List Char)) (text : List Char) : List (List Char) :=
  match acc.reverse with
  | [] => [text]
  | last :: rest => rest.reverse ++ [last ++ text]

/-- The `highlightText` getter: assembles the selected text from the final
highlight bounds; `isMSWindows` picks the line separator. -/
def highlightText (buf : TermBuffer) (t : Ctx) (mode : HighlightMode)
    (m : HighlightModel) (isMSWindows : Bool) : List Char :=
  match m.finalHighlightStart, m.finalHighlightEnd t with
  | some s, some e =>
    let sep : List Char :=
      if isMSWindows then [Char.ofNat 13, Char.ofNat 10] else [Char.ofNat 10]
    let result : List (List Char) :=
      if mode = HighlightMode.COLUMN then
        -- Ignore zero width selections
        if s.1 = e.1 then []
        else (intRangeIncl s.2 e.2).map fun i => lineTextAt buf i true s.1 (some e.1)
      else
        -- Get first row
        let startRowEndCol : Option Int := if s.2 = e.2 then some e.1 else none
        let first := [lineTextAt buf s.2 true s.1 startRowEndCol]
        -- Get middle rows
        let mid := (intRangeIncl (s.2 + 1) (e.2 - 1)).foldl
          (fun acc i =>
            let lineText := lineTextAt buf i true 0 none
            if lineWrappedAt buf i then appendToLast acc lineText
            else acc ++ [lineText])
          first
        -- Get final row
        if s.2 ≠ e.2 then
          let lineText := lineTextAt buf e.2 true 0 (some e.1)
          if lineWrappedAt buf e.2 then appendToLast mid lineText
          else mid ++ [lineText]
        else mid
    List.intercalate sep (result.map replaceNbsp)
  | _, _ => []

end HighlightManager

/-! Concrete fixtures used by witnesses and counterexamples. -/

/-- A plain single-width, single-unit cell holding `c`. -/
def cellOf (c : Char) : CharData :=
  { chars := [c], width := 1, code := (c.toNat : Int) }

/-- A row of plain cells. -/
def mkRow (s : List Char) (wrapped : Bool) : BufferLine :=
  { cells := s.map cellOf, isWrapped := wrapped }

/-- An 80-column-like context with 10 columns, 24 rows, base 0, 100 rows of
scrollback. -/
def t10 : Ctx := { cols := 10, rows := 24, ybase := 0, bufferLength := 100 }

/-- A 4-column context. -/
def t4 : Ctx := { cols := 4, rows := 24, ybase := 0, bufferLength := 2 }

/-- Reversed drag: start (5,2), end (3,1), no length anchor. -/
def mRev : HighlightModel :=
  { isHighlightAllActive := false, highlightStart := some (5, 2),
    highlightStartLength := 0, highlightEnd := some (3, 1) }

/-- Word anchor overflowing the viewport width: start (8,0), length 5, no
end. -/
def mWrap : HighlightModel :=
  { isHighlightAllActive := false, highlightStart := some (8, 0),
    highlightStartLength := 5, highlightEnd := none }

/-- Length anchor with a same-row drag: start (3,0), length 4, end (5,0). -/
def mAnch : HighlightModel :=
  { isHighlightAllActive := false, highlightStart := some (3, 0),
    highlightStartLength := 4, highlightEnd := some (5, 0) }

/-- Zero-width column selection: start (2,0), end (2,3). -/
def mCol : HighlightModel :=
  { isHighlightAllActive := false, highlightStart := some (2, 0),
    highlightStartLength := 0, highlightEnd := some (2, 3) }

/-- Wrapped word: row 0 "foob" (not wrapped), row 1 "ar  " (wrapped). -/
def fooBuf : TermBuffer :=
  { lines := [mkRow ['f', 'o', 'o', 'b'] false, mkRow ['a', 'r', ' ', ' '] true] }

/-- Fully packed wrapped pair: row 0 "abcd" (not wrapped), row 1 "efgh"
(wrapped). -/
def packedBuf : TermBuffer :=
  { lines := [mkRow ['a', 'b', 'c', 'd'] false, mkRow ['e', 'f', 'g', 'h'] true] }

/-- One row "ab  ". -/
def abBuf : TermBuffer := { lines := [mkRow ['a', 'b', ' ', ' '] false] }

/-- A row with a wide character: "a", then a width-2 cell "w" with its
width-0 continuation, then "b". -/
def wideRow : BufferLine :=
  { cells := [cellOf 'a',
              { chars := ['w'], width := 2, code := ('w'.toNat : Int) },
              { chars := ['w'], width := 0, code := ('w'.toNat : Int) },
              cellOf 'b'],
    isWrapped := false }

/-! Theorems -/

/-- C5: `adjustForTrim(amount)` decrements both stored rows by `amount`;
if the resulting end row is negative it clears the whole model and returns
true; otherwise a negative start row is clamped to 0 with its column kept,
and false is returned in every non-cleared case. Stated as equality of
`onTrim` with the specification-worded `onTrimSpec`. -/
theorem onTrim_eq_onTrimSpec (m : HighlightModel) (a : Int) :
    m.onTrim a = m.onTrimSpec a := by
  unfold HighlightModel.onTrim HighlightModel.onTrimSpec
  cases hE : m.highlightEnd <;> cases hS : m.highlightStart <;>
    simp <;> split_ifs <;> simp_all <;> try omega

/-- C6 (counterexample): with 3 buffer rows, `highlightLines(5, -2)` stores
start row 5 and end row -2, both outside `[0, bufferLength - 1] = [0, 2]`:
the claimed two-sided clamp does not happen. -/
theorem highlightLines_clamp_counterexample :
    (HighlightManager.highlightLines { cols := 10, rows := 24, ybase := 0, bufferLength := 3 }
        HighlightModel.clearHighlight 5 (-2)).highlightStart = some (0, 5) ∧
    (HighlightManager.highlightLines { cols := 10, rows := 24, ybase := 0, bufferLength := 3 }
        HighlightModel.clearHighlight 5 (-2)).highlightEnd = some (10, -2) ∧
    ¬ ((5 : Int) ≤ 3 - 1) ∧ ¬ ((0 : Int) ≤ -2) := by decide

/-- C6 (amended): `highlightLines(startRow, endRow)` clears the model and
stores `start = (0, max(startRow, 0))` and
`end = (viewportCols, min(endRow, bufferLength - 1))`: the start row is
clamped from below at 0 only, and the end row from above at
`bufferLength - 1` only. -/
theorem highlightLines_one_sided_clamp (t : Ctx) (m : HighlightModel) (sr er : Int) :
    HighlightManager.highlightLines t m sr er =
      { isHighlightAllActive := false
        highlightStart := some (0, max sr 0)
        highlightStartLength := 0
        highlightEnd := some (t.cols, min er (t.bufferLength - 1)) } ∧
    0 ≤ max sr 0 ∧ min er (t.bufferLength - 1) ≤ t.bufferLength - 1 :=
  ⟨rfl, le_max_right sr 0, min_le_right er (t.bufferLength - 1)⟩

/-- C3: when the start is set, highlight-all is off and the end is unset or
the endpoints are reversed, `finalHighlightEnd` is the start plus the length
anchor, wrapped by the viewport width using floor division and the
mathematical remainder when the sum exceeds it. -/
theorem finalHighlightEnd_by_length (t : Ctx) (m : HighlightModel) (s : Int × Int)
    (hall : m.isHighlightAllActive = false)
    (hs : m.highlightStart = some s)
    (hre : m.highlightEnd = none ∨ m.areHighlightValuesReversed = true)
    (hcols : 0 < t.cols) :
    m.finalHighlightEnd t =
      some (if s.1 + m.highlightStartLength > t.cols
        then ((s.1 + m.highlightStartLength) % t.cols,
              s.2 + (s.1 + m.highlightStartLength) / t.cols)
        else (s.1 + m.highlightStartLength, s.2)) := by
  have hb : (0 : Int) ≤ t.cols := le_of_lt hcols
  unfold HighlightModel.finalHighlightEnd
  rcases hre with h | h
  · simp only [hall, Bool.false_eq_true, if_false, hs, h]
    split
    · next hgt =>
      have hspl : (0 : Int) ≤ s.1 + m.highlightStartLength :=
        le_of_lt (lt_trans hcols hgt)
      simp [jsRem, jsFloorDiv, Int.tmod_eq_emod hspl hb, Int.fdiv_eq_ediv _ hb]
    · rfl
  · cases hE : m.highlightEnd with
    | none =>
      simp only [hall, Bool.false_eq_true, if_false, hs]
      split
      · next hgt =>
        have hspl : (0 : Int) ≤ s.1 + m.highlightStartLength :=
          le_of_lt (lt_trans hcols hgt)
        simp [jsRem, jsFloorDiv, Int.tmod_eq_emod hspl hb, Int.fdiv_eq_ediv _ hb]
      · rfl
    | some e =>
      simp only [hall, Bool.false_eq_true, if_false, hs, h, if_true]
      split
      · next hgt =>
        have hspl : (0 : Int) ≤ s.1 + m.highlightStartLength :=
          le_of_lt (lt_trans hcols hgt)
        simp [jsRem, jsFloorDiv, Int.tmod_eq_emod hspl hb, Int.fdiv_eq_ediv _ hb]
      · rfl

/-- C3 (witness): viewport of 10 columns, start (8,0), length 5, no end:
`finalHighlightEnd` is (3, 1). -/
theorem finalHighlightEnd_by_length_witness :
    (0 : Int) < 10 ∧ mWrap.finalHighlightEnd t10 = some (3, 1) := by
  refine ⟨by norm_num, ?_⟩
  have h := finalHighlightEnd_by_length t10 mWrap (8, 0) rfl rfl (Or.inl rfl) (by decide)
  rw [h]
  decide

/-- C4: when both endpoints are set, not reversed and highlight-all is off,
`finalHighlightEnd` extends the end to cover the length anchor when it is
positive and both endpoints share a row, and otherwise returns the stored
end unchanged. -/
theorem finalHighlightEnd_anchored (t : Ctx) (m : HighlightModel) (s e : Int × Int)
    (hall : m.isHighlightAllActive = false)
    (hs : m.highlightStart = some s) (he : m.highlightEnd = some e)
    (hrev : m.areHighlightValuesReversed = false)
    (hlen : 0 ≤ m.highlightStartLength) :
    m.finalHighlightEnd t =
      some (if 0 < m.highlightStartLength ∧ e.2 = s.2
        then (max (s.1 + m.highlightStartLength) e.1, e.2)
        else e) := by
  unfold HighlightModel.finalHighlightEnd
  simp only [hall, Bool.false_eq_true, if_false, hs, he, hrev]
  by_cases h0 : m.highlightStartLength = 0
  · simp [h0]
  · have hpos : 0 < m.highlightStartLength := lt_of_le_of_ne hlen (Ne.symm h0)
    by_cases h2 : e.2 = s.2 <;> simp [h0, h2, hpos]

/-- C4 (witness): start (3,0), length 4, end (5,0): `finalHighlightEnd` is
(7, 0) because `max(3+4, 5) = 7`. -/
theorem finalHighlightEnd_anchored_witness :
    (0 : Int) ≤ 4 ∧ mAnch.finalHighlightEnd t10 = some (7, 0) := by
  refine ⟨by norm_num, ?_⟩
  have h := finalHighlightEnd_anchored t10 mAnch (3, 0) (5, 0) rfl rfl rfl (by decide) (by decide)
  rw [h]
  decide

/-- C1: with both raw endpoints stored (columns non-negative, length anchor
non-negative, a positive viewport), the final (normalized) endpoints satisfy
start-row before-or-equal end-row, with start-column before-or-equal
end-column on a shared row — whatever the drag direction, length-anchor
wraparound or highlight-all state. -/
theorem finalHighlight_normalized (t : Ctx) (m : HighlightModel) (s e p q : Int × Int)
    (hs : m.highlightStart = some s) (he : m.highlightEnd = some e)
    (hsc : 0 ≤ s.1) (hec : 0 ≤ e.1) (hlen : 0 ≤ m.highlightStartLength)
    (hcols : 0 < t.cols) (hrows : 0 < t.rows) (hybase : 0 ≤ t.ybase)
    (hp : m.finalHighlightStart = some p) (hq : m.finalHighlightEnd t = some q) :
    p.2 < q.2 ∨ (p.2 = q.2 ∧ p.1 ≤ q.1) := by
  have hrevp : m.areHighlightValuesReversed = true ↔
      e.2 < s.2 ∨ (s.2 = e.2 ∧ e.1 < s.1) := by
    simp only [HighlightModel.areHighlightValuesReversed, hs, he, Bool.or_eq_true,
      Bool.and_eq_true, decide_eq_true_eq, gt_iff_lt]
  cases hall : m.isHighlightAllActive with
  | true =>
    simp only [HighlightModel.finalHighlightStart, HighlightModel.finalHighlightEnd,
      hall, if_true] at hp hq
    obtain rfl : ((0 : Int), (0 : Int)) = p := Option.some.inj hp
    obtain rfl : (t.cols, t.ybase + t.rows - 1) = q := Option.some.inj hq
    simp only []
    omega
  | false =>
    simp only [HighlightModel.finalHighlightStart, HighlightModel.finalHighlightEnd,
      hall, Bool.false_eq_true, if_false, hs, he, Option.isNone_some, Bool.or_self,
      Bool.false_eq_true] at hp hq
    cases hR : m.areHighlightValuesReversed with
    | true =>
      have hfacts := hrevp.mp hR
      simp only [hR, if_true] at hp hq
      obtain rfl : e = p := Option.some.inj hp
      split at hq
      · next hgt =>
        obtain rfl : (jsRem (s.1 + m.highlightStartLength) t.cols,
            s.2 + jsFloorDiv (s.1 + m.highlightStartLength) t.cols) = q :=
          Option.some.inj hq
        have hspl : (0 : Int) ≤ s.1 + m.highlightStartLength :=
          le_of_lt (lt_trans hcols hgt)
        have hdiv : 1 ≤ jsFloorDiv (s.1 + m.highlightStartLength) t.cols := by
          rw [jsFloorDiv, Int.fdiv_eq_ediv _ (le_of_lt hcols)]
          rw [Int.le_ediv_iff_mul_le hcols]
          omega
        left
        simp only []
        omega
      · next hgt =>
        obtain rfl : (s.1 + m.highlightStartLength, s.2) = q := Option.some.inj hq
        simp only []
        omega
    | false =>
      have hnot : ¬ (e.2 < s.2 ∨ (s.2 = e.2 ∧ e.1 < s.1)) := by
        rw [← hrevp]
        simp [hR]
      simp only [hR, Bool.false_eq_true, if_false] at hp hq
      obtain rfl : s = p := Option.some.inj hp
      by_cases h0 : m.highlightStartLength = 0
      · simp only [h0, ne_eq, not_true_eq_false, if_false] at hq
        obtain rfl : e = q := Option.some.inj hq
        omega
      · simp only [ne_eq, h0, not_false_eq_true, if_true] at hq
        by_cases h2 : e.2 = s.2
        · simp only [h2, if_true] at hq
          obtain rfl : (max (s.1 + m.highlightStartLength) e.1, s.2) = q :=
            Option.some.inj hq
          right
          constructor
          · omega
          · have := le_max_left (s.1 + m.highlightStartLength) e.1
            simp only []
            omega
        · simp only [h2, if_false] at hq
          obtain rfl : e = q := Option.some.inj hq
          omega

/-- C1 (witness): reversed drag start (5,2) / end (3,1) under a 10-column
viewport: the final start is (3,1), the final end is (5,2), and the
normalization inequality holds at those points. -/
theorem finalHighlight_normalized_witness :
    mRev.finalHighlightStart = some (3, 1) ∧ mRev.finalHighlightEnd t10 = some (5, 2) ∧
    (((3 : Int), (1 : Int)).2 < ((5 : Int), (2 : Int)).2 ∨
      (((3 : Int), (1 : Int)).2 = ((5 : Int), (2 : Int)).2 ∧
        ((3 : Int), (1 : Int)).1 ≤ ((5 : Int), (2 : Int)).1)) :=
  ⟨by decide, by decide,
    finalHighlight_normalized t10 mRev (5, 2) (3, 1) (3, 1) (5, 2) rfl rfl
      (by decide) (by decide) (by decide) (by decide) (by decide) (by decide)
      (by decide) (by decide)⟩

/-- C2: with 4 columns, row 0 "foob" (unwrapped) and row 1 "ar  " (wrapped),
word detection at (3,0) with whitespace-only selection disallowed finds the
word spanning the wrap: start column 0, length 6 (4 columns of row 0 plus
the 2 non-space columns of row 1). -/
theorem getWordAt_wrapped_continuation :
    HighlightManager.getWordAt fooBuf t4 (3, 0) false true true =
      some { start := 0, length := 6 } := by decide

/-- The single-row span length computed by `_getWordAt` is capped at the
viewport column count by the `Math.min` in its length formula. -/
theorem wordCoreAt_length_le (t : Ctx) (bl : BufferLine) (line : List Char) (x : Int) :
    (HighlightManager.wordCoreAt t bl line x).length ≤ t.cols := by
  unfold HighlightManager.wordCoreAt
  dsimp only
  split
  · exact min_le_left _ _
  · exact min_le_left _ _

/-- C10 (counterexample): with rows "abcd" (unwrapped) and "efgh" (wrapped)
in a 4-column viewport, the word at (0,1) comes back with length 8 > 4 even
though no row below row 1 exists: the excess came from the wrapped
continuation *above*, not from the row below. -/
theorem getWordAt_exceeds_viewport_via_above :
    HighlightManager.getWordAt packedBuf t4 (0, 1) false true true =
      some { start := -4, length := 8 } ∧
    (4 : Int) < 8 ∧ packedBuf.get 2 = none := by decide

/-- C10 (amended): word detection confined to a single row (both
wrapped-line follow flags off) never returns a length above the viewport
width, so only a wrapped continuation from a neighbouring row (above or
below) can push a returned length past it. -/
theorem getWordAt_single_row_capped (buf : TermBuffer) (t : Ctx) (coords : Int × Int)
    (allow : Bool) (wp : WordPosition)
    (h : HighlightManager.getWordAt buf t coords allow false false = some wp) :
    wp.length ≤ t.cols := by
  unfold HighlightManager.getWordAt at h
  simp only [HighlightManager.getWordAtAux] at h
  by_cases hc : coords.1 ≥ t.cols
  · rw [if_pos hc] at h
    cases h
  · rw [if_neg hc] at h
    cases hbl : buf.get coords.2 with
    | none =>
      rw [hbl] at h
      cases h
    | some bl =>
      rw [hbl] at h
      simp only [Bool.false_eq_true, false_and, if_false] at h
      split at h
      · cases h
      · have hwp := Option.some.inj h
        have : wp.length = (HighlightManager.wordCoreAt t bl
            (renderBufferLine bl false 0 none) coords.1).length := by
          rw [← hwp]
        rw [this]
        exact wordCoreAt_length_le t bl (renderBufferLine bl false 0 none) coords.1

/-- C10 (witness): on the single row "ab  " with both follow flags off, the
word at (0,0) has length 2, within the 4-column viewport. -/
theorem getWordAt_single_row_capped_witness :
    HighlightManager.getWordAt abBuf t4 (0, 0) false false false =
      some { start := 0, length := 2 } ∧
    ({ start := 0, length := 2 } : WordPosition).length ≤ t4.cols :=
  ⟨by decide,
    getWordAt_single_row_capped abBuf t4 (0, 0) false { start := 0, length := 2 }
      (by decide)⟩

/-- C8: `_getWordAt` returns none exactly when the queried column is at or
past the viewport width, the target row does not exist, or whitespace-only
spans are disallowed and the detected span's rendered content is
whitespace-only; in every other case it returns a span (the embedding is
total, so no case raises). -/
theorem getWordAt_none_iff (buf : TermBuffer) (t : Ctx) (coords : Int × Int)
    (allow fa fb : Bool) :
    HighlightManager.getWordAt buf t coords allow fa fb = none ↔
      (t.cols ≤ coords.1 ∨ buf.get coords.2 = none ∨
        (allow = false ∧ HighlightManager.wordSliceAllWhitespace buf t coords = true)) := by
  unfold HighlightManager.getWordAt HighlightManager.wordSliceAllWhitespace
  simp only [HighlightManager.getWordAtAux]
  by_cases hc : coords.1 ≥ t.cols
  · rw [if_pos hc]
    constructor
    · intro _
      exact Or.inl hc
    · intro _
      rfl
  · rw [if_neg hc]
    cases hbl : buf.get coords.2 with
    | none =>
      dsimp only
      constructor
      · intro _
        exact Or.inr (Or.inl rfl)
      · intro _
        rfl
    | some bl =>
      dsimp only
      split
      · next hcond =>
        constructor
        · intro _
          exact Or.inr (Or.inr hcond)
        · intro _
          rfl
      · next hcond =>
        constructor
        · intro hsome
          exact absurd hsome (by simp)
        · intro hor
          rcases hor with h1 | h2 | h3
          · exact absurd h1 hc
          · exact Option.noConfusion h2
          · exact absurd h3 hcond

/-- C9: `highlightText` is empty whenever there is no effective range
(final start or final end is null), and also, in Column mode, whenever the
final start and end share a column (a zero-width column selection). -/
theorem highlightText_empty_cases (buf : TermBuffer) (t : Ctx) (mode : HighlightMode)
    (m : HighlightModel) (win : Bool)
    (h : m.finalHighlightStart = none ∨ m.finalHighlightEnd t = none ∨
      (mode = HighlightMode.COLUMN ∧ ∃ s e, m.finalHighlightStart = some s ∧
        m.finalHighlightEnd t = some e ∧ s.1 = e.1)) :
    HighlightManager.highlightText buf t mode m win = [] := by
  unfold HighlightManager.highlightText
  rcases h with h | h | ⟨hm, s, e, hs, he, hcol⟩
  · rw [h]
  · rw [h]
    cases m.finalHighlightStart <;> rfl
  · rw [hs, he]
    simp [hm, hcol, List.intercalate]

/-- C9 (witness): column mode with final start (2,0) and final end (2,3)
(equal columns) extracts the empty string. -/
theorem highlightText_empty_cases_witness :
    HighlightManager.highlightText fooBuf t10 HighlightMode.COLUMN mCol false = [] :=
  highlightText_empty_cases fooBuf t10 HighlightMode.COLUMN mCol false
    (Or.inr (Or.inr ⟨rfl, (2, 0), (2, 3), by decide, by decide, rfl⟩))

/-- `renderCells` on a cons: a width-0 cell contributes nothing, any other
cell contributes its fragment. -/
theorem renderCells_cons (c : CharData) (l : List CharData) :
    renderCells (c :: l) = (if c.width != 0 then c.chars else []) ++ renderCells l := by
  unfold renderCells
  rw [List.filter_cons]
  by_cases h : (c.width != 0) = true
  · rw [if_pos h, if_pos h]
    rfl
  · rw [if_neg h, if_neg h]
    rfl

/-- `renderCells` distributes over list append. -/
theorem renderCells_append (a b : List CharData) :
    renderCells (a ++ b) = renderCells a ++ renderCells b := by
  induction a with
  | nil => rfl
  | cons c l ih =>
    rw [List.cons_append, renderCells_cons, renderCells_cons, ih, List.append_assoc]

/-- The full-row rendered string (`translateBufferLineToString(row, false)`)
is `renderCells` of all the row's cells. -/
theorem renderBufferLine_full (bl : BufferLine) :
    renderBufferLine bl false 0 none = renderCells bl.cells := by
  unfold renderBufferLine BufferLine.length
  simp

/-- `bufferLine.get` at an in-range natural column is plain list indexing. -/
theorem bufferLine_get_coe (bl : BufferLine) (n : Nat) (hn : n < bl.cells.length) :
    bl.get (n : Int) = bl.cells[n] := by
  unfold BufferLine.get
  rw [if_neg (by omega : ¬ (n : Int) < 0)]
  rw [Int.toNat_ofNat]
  rw [List.getD_eq_getElem?_getD, List.getElem?_eq_getElem hn]
  rfl

/-- Each `convertStep` iteration shifts the accumulator by an amount
independent of the accumulator. -/
theorem convertStep_shift (bl : BufferLine) (x a : Int) (i : Nat) :
    HighlightManager.convertStep bl x a i = a + HighlightManager.convertStep bl x 0 i := by
  unfold HighlightManager.convertStep
  dsimp only
  split_ifs <;> ring

/-- Folding `convertStep` is the initial value plus the sum of the per-column
shifts. -/
theorem foldl_convertStep (bl : BufferLine) (x : Int) (l : List Nat) (init : Int) :
    l.foldl (HighlightManager.convertStep bl x) init
      = init + (l.map (HighlightManager.convertStep bl x 0)).sum := by
  induction l generalizing init with
  | nil => simp
  | cons i l ih =>
    rw [List.foldl_cons, ih, List.map_cons, List.sum_cons, convertStep_shift]
    ring

/-- Partial sums of the per-column shifts measure the rendered text of the
cell range they cover, provided every fragment is non-empty: a column
contributes `-1` when width 0 and `fragment length - 1` otherwise, which
against the running `+1` per column is exactly the fragment's length. -/
theorem convert_sum_measures_render (bl : BufferLine)
    (hne : ∀ c ∈ bl.cells, c.chars ≠ []) :
    ∀ n, n ≤ bl.cells.length →
      (n : Int) + ((List.range n).map (fun (i : Nat) =>
        if (bl.get (i : Int)).width == 0 then (-1 : Int)
        else ((bl.get (i : Int)).chars.length : Int) - 1)).sum
      = ((renderCells (bl.cells.take n)).length : Int) := by
  intro n
  induction n with
  | zero => intro _; simp [renderCells]
  | succ n ih =>
    intro hn
    have hn' : n < bl.cells.length := by omega
    have ihn := ih (by omega)
    rw [List.range_succ, List.map_append, List.sum_append, List.take_succ,
      List.getElem?_eq_getElem hn']
    rw [show (some bl.cells[n]).toList = [bl.cells[n]] from rfl]
    rw [renderCells_append, renderCells_cons]
    simp only [List.map_cons, List.map_nil, List.sum_cons, List.sum_nil, add_zero]
    rw [bufferLine_get_coe bl n hn']
    have hlen1 : 0 < bl.cells[n].chars.length :=
      List.length_pos.mpr (hne bl.cells[n] (List.getElem_mem hn'))
    by_cases hw0 : (bl.cells[n].width != 0) = true
    · have hbeq : (bl.cells[n].width == 0) = false := by
        simpa using hw0
      rw [if_pos hw0, hbeq]
      simp only [Bool.false_eq_true, if_false, List.length_append]
      have hrc : renderCells ([] : List CharData) = [] := rfl
      rw [hrc, List.length_nil, Nat.add_zero]
      push_cast
      omega
    · have hbeq : (bl.cells[n].width == 0) = true := by
        simpa using hw0
      rw [if_neg hw0, hbeq]
      simp only [if_true, List.length_append,
        show renderCells ([] : List CharData) = [] from rfl, List.length_nil,
        Nat.add_zero]
      push_cast
      omega

/-- C7: for an in-range target column of non-zero width on a row whose
fragments are all non-empty, `_convertViewportColToCharacterIndex` returns
the length of the rendered text of the columns before the target — the
string index at which the target column's content begins in the row's
rendered string (second conjunct: the rendered row splits there). -/
theorem convertViewportColToCharacterIndex_correct (bl : BufferLine) (x : Nat)
    (hx : x < bl.cells.length)
    (hne : ∀ c ∈ bl.cells, c.chars ≠ [])
    (hw : (bl.get (x : Int)).width ≠ 0) :
    HighlightManager.convertViewportColToCharacterIndex bl (x : Int) =
      ((renderCells (bl.cells.take x)).length : Int) ∧
    renderBufferLine bl false 0 none =
      renderCells (bl.cells.take x) ++ (bl.get (x : Int)).chars ++
        renderCells (bl.cells.drop (x + 1)) := by
  have hget : bl.get (x : Int) = bl.cells[x] := bufferLine_get_coe bl x hx
  have hwbeq : (bl.cells[x].width == 0) = false := by
    rw [hget] at hw
    simpa using hw
  constructor
  · unfold HighlightManager.convertViewportColToCharacterIndex
    rw [if_neg (by omega : ¬ (x : Int) < 0), Int.toNat_ofNat]
    rw [foldl_convertStep]
    rw [List.range_succ, List.map_append, List.sum_append]
    have hstepx : HighlightManager.convertStep bl (x : Int) 0 x = 0 := by
      unfold HighlightManager.convertStep
      rw [hget]
      dsimp only
      rw [if_neg (by simp [hwbeq])]
      rw [if_neg (by simp)]
    rw [show ([x].map (HighlightManager.convertStep bl (x : Int) 0)).sum
          = HighlightManager.convertStep bl (x : Int) 0 x by simp]
    rw [hstepx, add_zero]
    have hcong : (List.range x).map (HighlightManager.convertStep bl (x : Int) 0)
        = (List.range x).map (fun (i : Nat) =>
            if (bl.get (i : Int)).width == 0 then (-1 : Int)
            else ((bl.get (i : Int)).chars.length : Int) - 1) := by
      refine List.map_congr_left ?_
      intro i hi
      have hix : i < x := List.mem_range.mp hi
      have hii : i < bl.cells.length := by omega
      have hnei : (x : Int) ≠ (i : Int) := by
        intro hcontra
        omega
      unfold HighlightManager.convertStep
      dsimp only
      by_cases hw0 : ((bl.get (i : Int)).width == 0) = true
      · rw [if_pos hw0, if_pos hw0]
        norm_num
      · have hlen1 : 0 < (bl.get (i : Int)).chars.length := by
          rw [bufferLine_get_coe bl i hii]
          exact List.length_pos.mpr (hne bl.cells[i] (List.getElem_mem hii))
        rw [if_neg hw0, if_neg hw0]
        by_cases hlong : 1 < (bl.get (i : Int)).chars.length
        · rw [if_pos ⟨hlong, hnei⟩]
          ring
        · rw [if_neg (by intro hcontra; exact hlong hcontra.1)]
          have : (bl.get (i : Int)).chars.length = 1 := by omega
          rw [this]
          norm_num
    rw [hcong]
    exact convert_sum_measures_render bl hne x (le_of_lt hx)
  · rw [renderBufferLine_full, hget]
    conv_lhs => rw [← List.take_append_drop x bl.cells]
    rw [renderCells_append]
    rw [List.append_assoc]
    congr 1
    rw [← List.getElem_cons_drop bl.cells x hx]
    rw [renderCells_cons]
    rw [if_pos (by simpa using hwbeq)]

/-- C7 (witness): in the row "a", wide "w" (with its width-0 continuation),
"b", the string index of column 3 is 2: the rendered row is "awb" and
column 3's content "b" begins at index 2. -/
theorem convertViewportColToCharacterIndex_correct_witness :
    HighlightManager.convertViewportColToCharacterIndex wideRow 3 =
      ((renderCells (wideRow.cells.take 3)).length : Int) ∧
    renderBufferLine wideRow false 0 none =
      renderCells (wideRow.cells.take 3) ++ (wideRow.get 3).chars ++
        renderCells (wideRow.cells.drop 4) :=
  convertViewportColToCharacterIndex_correct wideRow 3 (by decide)
    (by decide) (by decide)
